import Mathlib

/-!
Verification development for the NullTrace end-to-end encrypted group-chat
core (frontend/static/js/modules: group.js, mls.js, handshake.js, nacp.js).

The JavaScript source is embedded shallowly:
* byte strings that only flow through cryptographic primitives are modelled by
  the symbolic term type `D`; the AEAD, keyed hash, CSPRNG and base64 wrappers
  of libsodium (external primitives, out of scope of the repository) are
  modelled as injective constructors of `D`, so that AEAD decryption succeeds
  exactly when ciphertext, AAD, nonce and key match the encryption;
* JavaScript `x | 0` coercions are modelled by `toInt32`;
* the textual JSON built for AADs is modelled as the literal strings produced
  by `JSON.stringify` on the objects of the source (stable field order);
* stateful methods of `Group` / `MlsGroup` become functions from the state
  record to the updated state (plus emitted frames where the method sends).
-/

/-- JavaScript `x | 0` (ToInt32). -/
def toInt32 (n : Int) : Int := (n + 2 ^ 31) % 2 ^ 32 - 2 ^ 31

/-- Symbolic byte strings.  `s` is a literal text (`TextEncoder.encode`),
`nat` embeds the numeric model values of the handshake module, `cat` is
concatenation, `hash len key msg` is `crypto_generichash(len, msg, key)`
(`key = D.s ""` for the unkeyed form), `rnd ctr len` is the `ctr`-th draw of
`len` bytes from the CSPRNG, `enc` is
`crypto_aead_xchacha20poly1305_ietf_encrypt(pt, aad, null, nonce, key)` and
`b64e` is `sodium.to_base64`. -/
inductive D where
  | s (str : String)
  | nat (n : Nat)
  | cat (a b : D)
  | hash (len : Nat) (key msg : D)
  | rnd (ctr len : Nat)
  | enc (pt aad nonce key : D)
  | b64e (d : D)
deriving DecidableEq, Repr

/-- Byte length of a symbolic byte string (only the `hash`/`rnd` cases are
relied upon by theorems; the primitives guarantee those output lengths). -/
def dLen : D → Nat
  | .s str => str.utf8ByteSize
  | .nat _ => 32
  | .cat a b => dLen a + dLen b
  | .hash len _ _ => len
  | .rnd _ len => len
  | .enc pt _ _ _ => dLen pt + 16
  | .b64e d => 4 * ((dLen d + 2) / 3)

/-- `sodium.from_base64` (`u8` in handshake.js): succeeds on well-formed
base64 wire fields, which in this model are exactly the `b64e` terms. -/
def u8d : D → Option D
  | .b64e d => some d
  | _ => none

/-- `crypto_aead_xchacha20poly1305_ietf_decrypt(null, ct, aad, nonce, key)`:
succeeds iff `ct` was produced by the matching encryption call. -/
def aeadDec (ct aad nonce key : D) : Option D :=
  match ct with
  | .enc pt a n k => if a = aad ∧ n = nonce ∧ k = key then some pt else none
  | _ => none

/-- One character of `JSON.stringify` string escaping. -/
def escChar (c : Char) : List Char :=
  if c.toNat = 34 then [Char.ofNat 92, Char.ofNat 34]
  else if c.toNat = 92 then [Char.ofNat 92, Char.ofNat 92]
  else if c.toNat = 8 then [Char.ofNat 92, Char.ofNat 98]
  else if c.toNat = 9 then [Char.ofNat 92, Char.ofNat 116]
  else if c.toNat = 10 then [Char.ofNat 92, Char.ofNat 110]
  else if c.toNat = 12 then [Char.ofNat 92, Char.ofNat 102]
  else if c.toNat = 13 then [Char.ofNat 92, Char.ofNat 114]
  else if c.toNat < 32 then
    [Char.ofNat 92, Char.ofNat 117, Char.ofNat 48, Char.ofNat 48,
     Char.ofNat (if c.toNat / 16 < 10 then 48 + c.toNat / 16 else 87 + c.toNat / 16),
     Char.ofNat (if c.toNat % 16 < 10 then 48 + c.toNat % 16 else 87 + c.toNat % 16)]
  else [c]

/-- `JSON.stringify` escaping of a string value (without the quotes). -/
def jsonEscape (s : String) : String := String.mk (List.flatten (s.data.map escChar))

/-- The common part of `JSON.stringify({t, cid, s, e})`: everything up to and
excluding the closing brace.  Field order `t, cid, s, e` as in the source. -/
def aadCore (t cid : String) (sq e : Int) : String :=
  "\x7b\"t\":\"" ++ jsonEscape t ++ "\",\"cid\":\"" ++ jsonEscape cid ++
  "\",\"s\":" ++ toString sq ++ ",\"e\":" ++ toString e

/-- `Group._aad({t, cid, s, e})` = UTF-8 of `JSON.stringify({t, cid, s, e})`. -/
def aadM (t cid : String) (sq e : Int) : D := D.s (aadCore t cid sq e ++ "\x7d")

/-- `MlsGroup._aadGK(senderCid, epoch, rh)`: `{t:"gk", cid, s:0, e}` plus the
`rh` field when `rh` is truthy (`if (rh) base.rh = rh` — in particular the
empty string counts as absent). -/
def aadGK (cid : String) (e : Int) (rh : Option String) : D :=
  match rh with
  | some r =>
      if r = "" then D.s (aadCore ("gk") cid 0 e ++ "\x7d")
      else D.s (aadCore ("gk") cid 0 e ++ (",\"rh\":\"" ++ jsonEscape r ++ "\"\x7d"))
  | none => D.s (aadCore ("gk") cid 0 e ++ "\x7d")

/-- `Group._nonce(cid, seq, epoch)`:
`crypto_generichash(24, "NT-v1|nonce|" ‖ `${cid}|${seq}|${epoch}`)`. -/
def nonceD (cid : String) (sq e : Int) : D :=
  D.hash 24 (D.s "") (D.cat (D.s "NT-v1|nonce|")
    (D.s (cid ++ "|" ++ toString sq ++ "|" ++ toString e)))

/-- An `m` frame as produced/consumed by `Group.encrypt`/`Group.decrypt`. -/
structure MFrame where
  t : String
  cid : String
  s : Int
  e : Int
  n : D
  c : D
deriving DecidableEq, Repr

/-- A `gk` frame as produced by `MlsGroup.rekey` and consumed by `loadGK`.
`to` and `rh` are optional wire fields (absent = `undefined`). -/
structure GKFrame where
  t : String
  cid : String
  «to» : Option String
  e : Int
  rh : Option String
  n : D
  ek : D
deriving DecidableEq, Repr

/-- The mutable state of a `Group` (`MlsGroup` adds `isInitiator`). -/
structure GroupState where
  cid : String
  peers : List (String × D)
  groupKey : Option D
  epoch : Int
  pending : List MFrame
  sendSeq : Int
  recvSeq : List (String × Int)
  isInitiator : Bool
deriving DecidableEq, Repr

/-- `Map.get` on an association list (JS `Map` keyed by `cid`). -/
def lookupA (m : List (String × Int)) (k : String) : Option Int :=
  (m.find? (fun p => p.1 == k)).map (·.2)

/-- `Map.set` on an association list: replace in place or append. -/
def setA (m : List (String × Int)) (k : String) (v : Int) : List (String × Int) :=
  if m.any (fun p => p.1 == k) then m.map (fun p => if p.1 == k then (k, v) else p)
  else m ++ [(k, v)]

/-- `Group.encrypt(txt)`: returns the emitted frame (or `null`) and the
updated state. -/
def Group.encrypt (st : GroupState) (txt : String) : Option MFrame × GroupState :=
  match st.groupKey with
  | none => (none, st)
  | some gk =>
      let sq := st.sendSeq
      let e := st.epoch
      let nonce := nonceD st.cid sq e
      let aad := aadM ("m") st.cid sq e
      let cipher := D.enc (D.s txt) aad nonce gk
      (some { t := "m", cid := st.cid, s := sq, e := e, n := D.b64e nonce, c := D.b64e cipher },
       { st with sendSeq := sq + 1 })

/-- `Group.decrypt(msg)`: returns the plaintext (or `null`) and the updated
state.  Note the source passes the frame's own `u8(msg.n)` to the AEAD. -/
def Group.decrypt (st : GroupState) (msg : MFrame) : Option D × GroupState :=
  match st.groupKey with
  | none => (none, { st with pending := st.pending ++ [msg] })
  | some gk =>
      if toInt32 msg.e ≠ toInt32 st.epoch then (none, st)
      else
        let last := (lookupA st.recvSeq msg.cid).getD (-1)
        if toInt32 msg.s ≤ last then (none, st)
        else
          match u8d msg.c, u8d msg.n with
          | some ct, some nn =>
              match aeadDec ct (aadM ("m") msg.cid (toInt32 msg.s) (toInt32 msg.e)) nn gk with
              | some pt =>
                  (some pt, { st with recvSeq := setA st.recvSeq msg.cid (toInt32 msg.s) })
              | none => (none, st)
          | _, _ => (none, st)

/-- Loop body of `Group.flush`: shift frames off `pending`, try to decrypt
each, keep frames from future epochs in `rest`, finally `unshift` `rest`.
The `fuel` argument bounds the loop; it is always sufficient because with a
group key present `decrypt` never grows `pending` (the source loop terminates
for the same reason). -/
def flushGo (fuel : Nat) (st : GroupState) (rest : List MFrame) (out : List D) :
    GroupState × List D :=
  match fuel with
  | 0 => ({ st with pending := rest ++ st.pending }, out)
  | fuel + 1 =>
      match st.pending with
      | [] => ({ st with pending := rest }, out)
      | m :: tl =>
          let r := Group.decrypt { st with pending := tl } m
          match r.1 with
          | some txt => flushGo fuel r.2 rest (out ++ [txt])
          | none =>
              if toInt32 m.e > toInt32 r.2.epoch then flushGo fuel r.2 (rest ++ [m]) out
              else flushGo fuel r.2 rest out

/-- `Group.flush(cb)`: the collected `cb` arguments are returned as a list. -/
def Group.flush (st : GroupState) : GroupState × List D :=
  if st.groupKey.isNone then (st, []) else flushGo st.pending.length st [] []

/-- The guard `if (msg.«to» && msg.«to» !== this.cid) return;` of both `loadGK`
variants (JS truthiness: an empty-string `to` does not block). -/
def gkToBlocked (st : GroupState) (msg : GKFrame) : Bool :=
  match msg.«to» with
  | none => false
  | some t => !(t == "") && !(t == st.cid)

/-- Base-class `Group.loadGK(msg, mySk)` (group.js lines 99–121): no epoch
comparison; on AEAD success installs the key and epoch unconditionally. -/
def Group.loadGK (st : GroupState) (msg : GKFrame) (mySk : D) : GroupState :=
  if gkToBlocked st msg then st
  else
    match u8d msg.ek, u8d msg.n with
    | some ct, some nn =>
        match aeadDec ct (aadM ("gk") msg.cid 0 (toInt32 msg.e)) nn mySk with
        | some gk =>
            let st1 := { st with groupKey := some gk, epoch := toInt32 msg.e,
                                 sendSeq := 0, recvSeq := [] }
            (Group.flush st1).1
        | none => st
    | _, _ => st

/-- The `tryDecrypt(useRh)` closure of `MlsGroup.loadGK` (it only captures
`msg`, `theirE` and `mySk`). -/
def MlsGroup.tryDecryptGK (msg : GKFrame) (mySk : D) (useRh : Bool) :
    Option D :=
  match u8d msg.ek, u8d msg.n with
  | some ct, some nn =>
      aeadDec ct (aadGK msg.cid (toInt32 msg.e) (if useRh then msg.rh else none)) nn mySk
  | _, _ => none

/-- The `try { gk = tryDecrypt(…) } catch { … }` block of `MlsGroup.loadGK`:
primary attempt with `rh` when the frame carries a string `rh`, then exactly
one legacy retry (no `rh`) when the primary failed and the frame carried a
string `rh`. -/
def MlsGroup.gkResult (msg : GKFrame) (mySk : D) : Option D :=
  match (if msg.rh.isSome then MlsGroup.tryDecryptGK msg mySk true
         else MlsGroup.tryDecryptGK msg mySk false) with
  | some g => some g
  | none => if msg.rh.isSome then MlsGroup.tryDecryptGK msg mySk false else none

/-- `MlsGroup.loadGK(msg, mySk)` (mls.js lines 116–160): epoch guard, primary
AAD with `rh` when the frame carries a string `rh`, one legacy retry. -/
def MlsGroup.loadGK (st : GroupState) (msg : GKFrame) (mySk : D) : GroupState :=
  if gkToBlocked st msg then st
  else if toInt32 msg.e ≤ toInt32 st.epoch then st
  else
    match MlsGroup.gkResult msg mySk with
    | some g =>
        let st1 := { st with groupKey := some g, epoch := toInt32 msg.e,
                             sendSeq := 0, recvSeq := [] }
        (Group.flush st1).1
    | none => st

/-- `MlsGroup._rosterCids()`: dedupe `self ∪ peers.keys` and sort. -/
def rosterCids (st : GroupState) : List String :=
  ((st.cid :: st.peers.map Prod.fst).eraseDups).mergeSort (fun a b => a ≤ b)

/-- `JSON.stringify` of an array of strings (used for the roster hash). -/
def jsonArrStr (l : List String) : String :=
  "[" ++ String.intercalate "," (l.map (fun s => "\"" ++ jsonEscape s ++ "\"")) ++ "]"

/-- `MlsGroup._rosterHash()` = `b64(crypto_generichash(16, json(roster)))`;
the base64-of-hash pair of external primitives is modelled by an injective
string tag. -/
def rosterHashStr (st : GroupState) : String := "b64h16|" ++ jsonArrStr (rosterCids st)

/-- The fan-out loop of `MlsGroup.rekey`: one wrapped `gk` frame per `peers`
entry, in map order, drawing one fresh nonce per peer
(`ctr` numbers the CSPRNG draws; the new group key used draw `ctr`). -/
def MlsGroup.gkFrames (cid : String) (e : Int) (rh : String) (gk : D) (ctr : Nat) :
    List (String × D) → Nat → List GKFrame
  | [], _ => []
  | (pc, sk) :: rest, i =>
      let nonce := D.rnd (ctr + 1 + i) 24
      { t := "gk", cid := cid, «to» := some pc, e := e, rh := some rh,
        n := D.b64e nonce,
        ek := D.b64e (D.enc gk (aadGK cid e (some rh)) nonce sk) } ::
      MlsGroup.gkFrames cid e rh gk ctr rest (i + 1)

/-- `MlsGroup.rekey()` (mls.js lines 74–110): initiator only; mints a fresh
32-byte key, bumps the epoch, resets sequence state and emits the `gk`
frames.  `ctr` indexes the CSPRNG draws of this call. -/
def MlsGroup.rekey (st : GroupState) (ctr : Nat) : GroupState × List GKFrame :=
  if st.isInitiator = false then (st, [])
  else
    let gk := D.rnd ctr 32
    let e := toInt32 st.epoch + 1
    let rh := rosterHashStr st
    let st1 := { st with groupKey := some gk, epoch := e, sendSeq := 0, recvSeq := [] }
    (st1, MlsGroup.gkFrames st.cid e rh gk ctr st.peers 0)

/-! ### Helper lemmas about the association-list maps -/

theorem find?_map_set_self (m : List (String × Int)) (k : String) (v : Int) :
    m.any (fun p => p.1 == k) = true →
    (m.map (fun p => if p.1 == k then (k, v) else p)).find? (fun p => p.1 == k) =
      some (k, v) := by
  induction m with
  | nil => intro h; simp at h
  | cons hd tl ih =>
      intro h
      by_cases hk : (hd.1 == k) = true
      · rw [List.map_cons, if_pos hk, List.find?_cons]
        simp
      · have hk' : (hd.1 == k) = false := by simpa using hk
        rw [List.map_cons, if_neg hk, List.find?_cons, hk']
        exact ih (by simpa [hk'] using h)

theorem find?_append_absent (m : List (String × Int)) (k : String) (v : Int)
    (h : m.any (fun p => p.1 == k) = false) :
    (m ++ [(k, v)]).find? (fun p => p.1 == k) = some (k, v) := by
  rw [List.find?_append]
  have hnone : m.find? (fun p => p.1 == k) = none := by
    rw [List.find?_eq_none]
    intro x hx
    have := List.any_eq_false.mp h x hx
    simpa using this
  rw [hnone, List.find?_cons]
  simp

theorem lookupA_setA_self (m : List (String × Int)) (k : String) (v : Int) :
    lookupA (setA m k v) k = some v := by
  unfold setA lookupA
  by_cases h : m.any (fun p => p.1 == k) = true
  · rw [if_pos h, find?_map_set_self m k v h]
    rfl
  · have h' : m.any (fun p => p.1 == k) = false := Bool.eq_false_iff.mpr h
    rw [if_neg h, find?_append_absent m k v h']
    rfl

theorem find?_map_set_ne (m : List (String × Int)) (k : String) (v : Int) (q : String)
    (hne : ¬ k = q) :
    (m.map (fun p => if p.1 == k then (k, v) else p)).find? (fun p => p.1 == q) =
      m.find? (fun p => p.1 == q) := by
  have hkq : ((k : String) == q) = false := by simpa using hne
  induction m with
  | nil => simp
  | cons hd tl ih =>
      by_cases hk : (hd.1 == k) = true
      · have hdk : hd.1 = k := by simpa using hk
        have hdq : (hd.1 == q) = false := by simp [hdk, hne]
        rw [List.map_cons, if_pos hk, List.find?_cons, List.find?_cons, hdq]
        have : ((k, v).1 == q) = false := hkq
        rw [this, ih]
      · rw [List.map_cons, if_neg hk, List.find?_cons, List.find?_cons]
        by_cases hdq : (hd.1 == q) = true
        · rw [hdq]
        · have hdq' : (hd.1 == q) = false := by simpa using hdq
          rw [hdq', ih]

theorem lookupA_setA_ne (m : List (String × Int)) (k : String) (v : Int) (q : String)
    (hne : ¬ k = q) : lookupA (setA m k v) q = lookupA m q := by
  unfold setA lookupA
  by_cases h : m.any (fun p => p.1 == k) = true
  · rw [if_pos h, find?_map_set_ne m k v q hne]
  · rw [if_neg h, List.find?_append]
    have h1 : ([(k, v)].find? (fun p => p.1 == q)) = none := by
      rw [List.find?_cons]
      have : ((k, v).1 == q) = false := by simpa using hne
      rw [this]
      rfl
    rw [h1]
    cases m.find? (fun p => p.1 == q) <;> rfl

/-! ### Preservation lemmas for `decrypt` and `flush` -/

theorem decrypt_cases (st : GroupState) (msg : MFrame) (h : st.groupKey.isSome) :
    (Group.decrypt st msg).2 = st ∨
    (Group.decrypt st msg).2 =
      { st with recvSeq := setA st.recvSeq msg.cid (toInt32 msg.s) } := by
  obtain ⟨gk, hgk⟩ := Option.isSome_iff_exists.mp h
  unfold Group.decrypt
  rw [hgk]
  repeat' split
  all_goals first
    | (left; rfl)
    | (right; rfl)
    | (exfalso; simp_all; done)
    | ((by_cases hle : toInt32 msg.s ≤ (lookupA st.recvSeq msg.cid).getD (-1) <;>
        simp [hle]); done)

theorem flushGo_preserves (fuel : Nat) :
    ∀ (st : GroupState) (rest : List MFrame) (out : List D), st.groupKey.isSome →
    (flushGo fuel st rest out).1.cid = st.cid ∧
    (flushGo fuel st rest out).1.groupKey = st.groupKey ∧
    (flushGo fuel st rest out).1.epoch = st.epoch ∧
    (flushGo fuel st rest out).1.sendSeq = st.sendSeq ∧
    (flushGo fuel st rest out).1.peers = st.peers := by
  induction fuel with
  | zero => intro st rest out _; simp [flushGo]
  | succ n ih =>
      intro st rest out h
      unfold flushGo
      cases hp : st.pending with
      | nil => simp
      | cons m tl =>
          dsimp only
          have h1 : ({ st with pending := tl } : GroupState).groupKey.isSome = true := h
          have dc := decrypt_cases { st with pending := tl } m h1
          have hfields :
              (Group.decrypt { st with pending := tl } m).2.cid = st.cid ∧
              (Group.decrypt { st with pending := tl } m).2.groupKey = st.groupKey ∧
              (Group.decrypt { st with pending := tl } m).2.epoch = st.epoch ∧
              (Group.decrypt { st with pending := tl } m).2.sendSeq = st.sendSeq ∧
              (Group.decrypt { st with pending := tl } m).2.peers = st.peers := by
            rcases dc with he | he <;> rw [he] <;> exact ⟨rfl, rfl, rfl, rfl, rfl⟩
          obtain ⟨f1, f2, f3, f4, f5⟩ := hfields
          have h2 : (Group.decrypt { st with pending := tl } m).2.groupKey.isSome := by
            rw [f2]; exact h
          cases hr : (Group.decrypt { st with pending := tl } m).1 with
          | some txt =>
              dsimp only
              have ihr := ih (Group.decrypt { st with pending := tl } m).2 rest (out ++ [txt]) h2
              exact ⟨ihr.1.trans f1, ihr.2.1.trans f2, ihr.2.2.1.trans f3,
                     ihr.2.2.2.1.trans f4, ihr.2.2.2.2.trans f5⟩
          | none =>
              dsimp only
              split
              · have ihr := ih (Group.decrypt { st with pending := tl } m).2 (rest ++ [m]) out h2
                exact ⟨ihr.1.trans f1, ihr.2.1.trans f2, ihr.2.2.1.trans f3,
                       ihr.2.2.2.1.trans f4, ihr.2.2.2.2.trans f5⟩
              · have ihr := ih (Group.decrypt { st with pending := tl } m).2 rest out h2
                exact ⟨ihr.1.trans f1, ihr.2.1.trans f2, ihr.2.2.1.trans f3,
                       ihr.2.2.2.1.trans f4, ihr.2.2.2.2.trans f5⟩

theorem flush_preserves (st : GroupState) :
    (Group.flush st).1.cid = st.cid ∧
    (Group.flush st).1.groupKey = st.groupKey ∧
    (Group.flush st).1.epoch = st.epoch ∧
    (Group.flush st).1.sendSeq = st.sendSeq ∧
    (Group.flush st).1.peers = st.peers := by
  unfold Group.flush
  by_cases h : st.groupKey.isNone
  · simp [h]
  · have h' : st.groupKey.isSome := by
      cases hk : st.groupKey
      · simp [hk] at h
      · simp
    simp only [h, if_false, Bool.false_eq_true]
    exact flushGo_preserves st.pending.length st [] [] h'

theorem flush_of_pending_nil (st : GroupState) (h : st.groupKey.isSome)
    (hp : st.pending = []) : Group.flush st = (st, []) := by
  have h' : st.groupKey.isNone = false := by
    cases hk : st.groupKey
    · simp [hk] at h
    · simp
  have he : ({ st with pending := ([] : List MFrame) } : GroupState) = st := by
    rw [← hp]
  unfold Group.flush
  rw [h', hp]
  simp [flushGo, he]

/-! ### Claim theorems: group message channel -/

/-- C8: `Group.encrypt` returns no frame and leaves `sendSeq` unchanged when
no group key is installed; with a key it emits
`{t:"m", cid, s = sendSeq, e = epoch, n = b64(nonce(cid,s,e)), c = b64(AEAD)}`
and afterwards `sendSeq` has grown by exactly one. -/
theorem group_encrypt_spec (st : GroupState) (txt : String) :
    (st.groupKey = none → Group.encrypt st txt = (none, st)) ∧
    (∀ gk, st.groupKey = some gk →
      Group.encrypt st txt =
        (some { t := "m", cid := st.cid, s := st.sendSeq, e := st.epoch,
                n := D.b64e (nonceD st.cid st.sendSeq st.epoch),
                c := D.b64e (D.enc (D.s txt) (aadM ("m") st.cid st.sendSeq st.epoch)
                              (nonceD st.cid st.sendSeq st.epoch) gk) },
         { st with sendSeq := st.sendSeq + 1 })) := by
  constructor
  · intro h
    unfold Group.encrypt
    rw [h]
  · intro gk h
    unfold Group.encrypt
    rw [h]

/-- Concrete state used by the witness of `group_encrypt_spec`. -/
def c8St : GroupState :=
  { cid := "A", peers := [], groupKey := some (D.rnd 0 32), epoch := 1,
    pending := [], sendSeq := 5, recvSeq := [], isInitiator := true }

theorem group_encrypt_spec_witness :
    Group.encrypt c8St "hi" =
      (some { t := "m", cid := c8St.cid, s := c8St.sendSeq, e := c8St.epoch,
              n := D.b64e (nonceD c8St.cid c8St.sendSeq c8St.epoch),
              c := D.b64e (D.enc (D.s "hi") (aadM ("m") c8St.cid c8St.sendSeq c8St.epoch)
                            (nonceD c8St.cid c8St.sendSeq c8St.epoch) (D.rnd 0 32)) },
       { c8St with sendSeq := c8St.sendSeq + 1 }) :=
  (group_encrypt_spec c8St "hi").2 (D.rnd 0 32) rfl

/-- C3: replay rejection in `Group.decrypt`.  With a group key installed:
(1) a frame whose (coerced) sequence is at most the recorded `recvSeq` entry
of its sender and whose epoch matches is dropped with the state unchanged;
(2) an accepted frame has a strictly larger sequence than the recorded entry,
carries the current epoch, and the only state change records
`recvSeq[cid] = s` (group key and epoch untouched);
(3) recorded `recvSeq` entries never decrease across a `decrypt` call. -/
theorem group_decrypt_replay_reject (st : GroupState) (msg : MFrame) :
    (∀ s0, st.groupKey.isSome → lookupA st.recvSeq msg.cid = some s0 →
       toInt32 msg.s ≤ s0 → toInt32 msg.e = toInt32 st.epoch →
       Group.decrypt st msg = (none, st)) ∧
    (∀ pt st2, st.groupKey.isSome → Group.decrypt st msg = (some pt, st2) →
       toInt32 msg.e = toInt32 st.epoch ∧
       (lookupA st.recvSeq msg.cid).getD (-1) < toInt32 msg.s ∧
       st2 = { st with recvSeq := setA st.recvSeq msg.cid (toInt32 msg.s) }) ∧
    (∀ q s0, st.groupKey.isSome → lookupA st.recvSeq q = some s0 →
       ∃ s1, lookupA (Group.decrypt st msg).2.recvSeq q = some s1 ∧ s0 ≤ s1) := by
  refine ⟨?_, ?_, ?_⟩
  · intro s0 h hlook hle he
    obtain ⟨gk, hgk⟩ := Option.isSome_iff_exists.mp h
    unfold Group.decrypt
    rw [hgk]
    dsimp only
    rw [if_neg (by simp [he]), hlook]
    rw [if_pos (by simpa using hle)]
  · intro pt st2 h hdec
    obtain ⟨gk, hgk⟩ := Option.isSome_iff_exists.mp h
    unfold Group.decrypt at hdec
    rw [hgk] at hdec
    dsimp only at hdec
    repeat' split at hdec
    all_goals simp_all
  · intro q s0 h hlook
    obtain ⟨gk, hgk⟩ := Option.isSome_iff_exists.mp h
    unfold Group.decrypt
    rw [hgk]
    dsimp only
    repeat' split
    all_goals try exact ⟨s0, hlook, le_refl s0⟩
    by_cases hq : msg.cid = q
    · subst hq
      refine ⟨toInt32 msg.s,
        by simpa using lookupA_setA_self st.recvSeq msg.cid (toInt32 msg.s), ?_⟩
      simp only [hlook, Option.getD_some] at *
      omega
    · exact ⟨s0,
        by simpa [lookupA_setA_ne st.recvSeq msg.cid (toInt32 msg.s) q hq] using hlook,
        le_refl s0⟩

/-- Concrete state used by the witness of `group_decrypt_replay_reject`:
sequence 5 from sender "B" has already been accepted. -/
def c3St : GroupState :=
  { cid := "A", peers := [], groupKey := some (D.rnd 1 32), epoch := 0,
    pending := [], sendSeq := 0, recvSeq := [("B", 5)], isInitiator := false }

/-- A syntactically valid replayed frame from "B" with sequence 4 ≤ 5. -/
def c3Msg : MFrame :=
  { t := "m", cid := "B", s := 4, e := 0,
    n := D.b64e (nonceD "B" 4 0),
    c := D.b64e (D.enc (D.s "x") (aadM ("m") "B" 4 0) (nonceD "B" 4 0) (D.rnd 1 32)) }

theorem group_decrypt_replay_reject_witness :
    Group.decrypt c3St c3Msg = (none, c3St) :=
  (group_decrypt_replay_reject c3St c3Msg).1 5 rfl (by decide) (by decide) rfl

/-! ### Claim theorems: MLS-lite epoch state machine -/

/-- C1: in `MlsGroup.loadGK`, a `gk` frame whose (int-coerced) epoch is at
most the current epoch leaves the state — in particular `groupKey`, `epoch`,
`sendSeq` and `recvSeq` — completely unchanged; and any call that does change
the state strictly increases `epoch`, so installed epochs strictly increase
across any sequence of successful GK installs. -/
theorem mls_loadGK_epoch_monotone (st : GroupState) (msg : GKFrame) (mySk : D)
    (hrange : st.epoch = toInt32 st.epoch) :
    (toInt32 msg.e ≤ st.epoch → MlsGroup.loadGK st msg mySk = st) ∧
    (MlsGroup.loadGK st msg mySk ≠ st → st.epoch < (MlsGroup.loadGK st msg mySk).epoch) := by
  constructor
  · intro hle
    unfold MlsGroup.loadGK
    by_cases hb : gkToBlocked st msg
    · rw [if_pos hb]
    · rw [if_neg hb, if_pos (by rw [← hrange]; exact hle)]
  · intro hne
    unfold MlsGroup.loadGK at hne ⊢
    by_cases hb : gkToBlocked st msg
    · rw [if_pos hb] at hne
      exact absurd rfl hne
    · rw [if_neg hb] at hne ⊢
      by_cases hle : toInt32 msg.e ≤ toInt32 st.epoch
      · rw [if_pos hle] at hne
        exact absurd rfl hne
      · rw [if_neg hle] at hne ⊢
        cases hgkr : MlsGroup.gkResult msg mySk with
        | none =>
            rw [hgkr] at hne
            exact absurd rfl hne
        | some g =>
            dsimp only
            have hp := (flush_preserves
              { st with groupKey := some g, epoch := toInt32 msg.e,
                        sendSeq := 0, recvSeq := [] }).2.2.1
            rw [hp]
            dsimp only
            omega

/-- Concrete state/frame for the witness of `mls_loadGK_epoch_monotone`:
current epoch 3, incoming `gk` for epoch 2 — dropped without change. -/
def c1St : GroupState :=
  { cid := "G", peers := [], groupKey := some (D.rnd 0 32), epoch := 3,
    pending := [], sendSeq := 7, recvSeq := [("H", 1)], isInitiator := false }

def c1Msg : GKFrame :=
  { t := "gk", cid := "H", «to» := some "G", e := 2, rh := none,
    n := D.b64e (D.rnd 4 24),
    ek := D.b64e (D.enc (D.rnd 5 32) (aadM ("gk") "H" 0 2) (D.rnd 4 24) (D.s "pk")) }

theorem mls_loadGK_epoch_monotone_witness :
    MlsGroup.loadGK c1St c1Msg (D.s "pk") = c1St :=
  (mls_loadGK_epoch_monotone c1St c1Msg (D.s "pk") (by decide)).1 (by decide)

theorem gkFrames_length (cid : String) (e : Int) (rh : String) (gk : D) (ctr : Nat) :
    ∀ (l : List (String × D)) (i : Nat),
      (MlsGroup.gkFrames cid e rh gk ctr l i).length = l.length := by
  intro l
  induction l with
  | nil => intro i; rfl
  | cons p rest ih =>
      intro i
      cases p with
      | mk pc sk => simp [MlsGroup.gkFrames, ih (i + 1)]

theorem gkFrames_getElem (cid : String) (e : Int) (rh : String) (gk : D) (ctr : Nat) :
    ∀ (l : List (String × D)) (i j : Nat) (p : String × D), l[j]? = some p →
      (MlsGroup.gkFrames cid e rh gk ctr l i)[j]? =
        some { t := "gk", cid := cid, «to» := some p.1, e := e, rh := some rh,
               n := D.b64e (D.rnd (ctr + 1 + (i + j)) 24),
               ek := D.b64e (D.enc gk (aadGK cid e (some rh))
                       (D.rnd (ctr + 1 + (i + j)) 24) p.2) } := by
  intro l
  induction l with
  | nil => intro i j p hp; simp at hp
  | cons q rest ih =>
      intro i j p hp
      cases q with
      | mk pc sk =>
          cases j with
          | zero =>
              simp only [List.getElem?_cons_zero, Option.some.injEq] at hp
              subst hp
              simp [MlsGroup.gkFrames]
          | succ j =>
              simp only [List.getElem?_cons_succ] at hp
              have := ih (i + 1) j p hp
              have harith : i + 1 + j = i + (j + 1) := by omega
              rw [harith] at this
              simpa [MlsGroup.gkFrames] using this

/-- C5: `MlsGroup.rekey` for an initiator draws a fresh 32-byte group key
from the CSPRNG, increments the epoch by exactly 1, resets `sendSeq` to 0,
empties `recvSeq`, and emits exactly one `gk` frame per `peers` entry, each
carrying `t = "gk"`, the initiator's `cid`, the recipient's cid as `to`, the
new epoch `e`, the roster hash `rh`, a fresh random nonce `n` and the group
key AEAD-wrapped under that member's pair key as `ek`. -/
theorem mls_rekey_spec (st : GroupState) (ctr : Nat)
    (hinit : st.isInitiator = true) (hrange : st.epoch = toInt32 st.epoch) :
    (MlsGroup.rekey st ctr).1.groupKey = some (D.rnd ctr 32) ∧
    dLen (D.rnd ctr 32) = 32 ∧
    (MlsGroup.rekey st ctr).1.epoch = st.epoch + 1 ∧
    (MlsGroup.rekey st ctr).1.sendSeq = 0 ∧
    (MlsGroup.rekey st ctr).1.recvSeq = [] ∧
    (MlsGroup.rekey st ctr).2.length = st.peers.length ∧
    (∀ (j : Nat) (p : String × D), st.peers[j]? = some p →
      (MlsGroup.rekey st ctr).2[j]? =
        (some { t := "gk", cid := st.cid, «to» := some p.1, e := st.epoch + 1,
                rh := some (rosterHashStr st),
                n := D.b64e (D.rnd (ctr + 1 + j) 24),
                ek := D.b64e (D.enc (D.rnd ctr 32)
                        (aadGK st.cid (st.epoch + 1) (some (rosterHashStr st)))
                        (D.rnd (ctr + 1 + j) 24) p.2) } : Option GKFrame)) := by
  unfold MlsGroup.rekey
  rw [hinit, if_neg (by simp)]
  dsimp only
  refine ⟨rfl, rfl, ?_, rfl, rfl, ?_, ?_⟩
  · simp only [← hrange]
  · exact gkFrames_length st.cid (toInt32 st.epoch + 1) (rosterHashStr st) (D.rnd ctr 32) ctr
      st.peers 0
  · intro j p hjp
    have := gkFrames_getElem st.cid (toInt32 st.epoch + 1) (rosterHashStr st) (D.rnd ctr 32)
      ctr st.peers 0 j p hjp
    simp only [Nat.zero_add] at this
    simp only [← hrange] at this ⊢
    exact this

/-- Concrete two-member state for the witness of `mls_rekey_spec`. -/
def c5St : GroupState :=
  { cid := "H", peers := [("B", D.s "kB"), ("C", D.s "kC")],
    groupKey := some (D.rnd 0 32), epoch := 1,
    pending := [], sendSeq := 9, recvSeq := [("B", 2)], isInitiator := true }

theorem mls_rekey_spec_witness :
    (MlsGroup.rekey c5St 10).1.groupKey = some (D.rnd 10 32) ∧
    (MlsGroup.rekey c5St 10).1.epoch = c5St.epoch + 1 ∧
    (MlsGroup.rekey c5St 10).1.sendSeq = 0 ∧
    (MlsGroup.rekey c5St 10).1.recvSeq = [] ∧
    (MlsGroup.rekey c5St 10).2.length = c5St.peers.length ∧
    (MlsGroup.rekey c5St 10).2[1]? =
      (some { t := "gk", cid := c5St.cid, «to» := some "C", e := c5St.epoch + 1,
              rh := some (rosterHashStr c5St),
              n := D.b64e (D.rnd (10 + 1 + 1) 24),
              ek := D.b64e (D.enc (D.rnd 10 32)
                      (aadGK c5St.cid (c5St.epoch + 1) (some (rosterHashStr c5St)))
                      (D.rnd (10 + 1 + 1) 24) (D.s "kC")) } : Option GKFrame) := by
  have h := mls_rekey_spec c5St 10 rfl (by decide)
  exact ⟨h.1, h.2.2.1, h.2.2.2.1, h.2.2.2.2.1, h.2.2.2.2.2.1,
         h.2.2.2.2.2.2 1 ("C", D.s "kC") rfl⟩

/-! ### C6: `rh` handling and legacy fallback in `MlsGroup.loadGK` -/

theorem escChar_length_pos (c : Char) : 1 ≤ (escChar c).length := by
  unfold escChar
  split_ifs <;> simp

theorem jsonEscape_length_ge (s : String) : s.length ≤ (jsonEscape s).length := by
  show s.data.length ≤ (String.mk (List.flatten (s.data.map escChar))).length
  have : ∀ l : List Char, l.length ≤ (List.flatten (l.map escChar)).length := by
    intro l
    induction l with
    | nil => simp
    | cons c rest ih =>
        simp only [List.map_cons, List.flatten_cons, List.length_append, List.length_cons]
        have := escChar_length_pos c
        omega
  exact this s.data

theorem aadGK_some_ne_none (cid : String) (e : Int) (s : String) (hs : ¬ s = "") :
    ¬ aadGK cid e (some s) = aadGK cid e none := by
  intro heq
  simp only [aadGK, if_neg hs] at heq
  have hstr := D.s.inj heq
  have hlen := congrArg String.length hstr
  simp only [String.length_append] at hlen
  have h1 : (",\"rh\":\"" : String).length = 7 := rfl
  have h2 : ("\"\x7d" : String).length = 2 := rfl
  have h3 : ("\x7d" : String).length = 1 := rfl
  have h4 : 1 ≤ s.length := by
    have hd : s.data ≠ [] := by
      intro h0
      apply hs
      cases s
      simp_all
    exact List.length_pos.mpr hd
  have h5 := jsonEscape_length_ge s
  omega

/-- C6 (amended): in `MlsGroup.loadGK` the primary AAD carries the `rh`
segment iff the frame carries a **non-empty** string `rh` (`_aadGK` tests JS
truthiness, so `rh = ""` yields the legacy AAD shape); when the primary
decryption fails and the frame carried a string `rh`, decryption is retried
exactly once with the legacy AAD shape and a successful retry installs the
key; if both attempts fail the frame is dropped with the whole state
unchanged. -/
theorem mls_loadGK_rh_fallback :
    (∀ (cid : String) (e : Int) (s : String),
       (aadGK cid e (some s) = aadGK cid e none ↔ s = "")) ∧
    (∀ (st : GroupState) (msg : GKFrame) (mySk : D) (s : String) (g : D),
       gkToBlocked st msg = false → toInt32 st.epoch < toInt32 msg.e →
       msg.rh = some s →
       MlsGroup.tryDecryptGK msg mySk true = none →
       MlsGroup.tryDecryptGK msg mySk false = some g →
       (MlsGroup.loadGK st msg mySk).groupKey = some g ∧
       (MlsGroup.loadGK st msg mySk).epoch = toInt32 msg.e) ∧
    (∀ (st : GroupState) (msg : GKFrame) (mySk : D),
       MlsGroup.tryDecryptGK msg mySk true = none →
       MlsGroup.tryDecryptGK msg mySk false = none →
       MlsGroup.loadGK st msg mySk = st) := by
  refine ⟨?_, ?_, ?_⟩
  · intro cid e s
    constructor
    · intro heq
      by_contra hs
      exact aadGK_some_ne_none cid e s hs heq
    · intro h
      subst h
      rfl
  · intro st msg mySk s g hb hlt hrh hfail hretry
    have hsome : msg.rh.isSome = true := by rw [hrh]; rfl
    have hgkr : MlsGroup.gkResult msg mySk = some g := by
      unfold MlsGroup.gkResult
      rw [if_pos hsome, hfail, if_pos hsome, hretry]
    unfold MlsGroup.loadGK
    rw [if_neg (by simp [hb]), if_neg (by omega), hgkr]
    dsimp only
    have hp := flush_preserves
      { st with groupKey := some g, epoch := toInt32 msg.e, sendSeq := 0, recvSeq := [] }
    exact ⟨hp.2.1, hp.2.2.1⟩
  · intro st msg mySk hfail1 hfail2
    have hgkr : MlsGroup.gkResult msg mySk = none := by
      unfold MlsGroup.gkResult
      cases hsome : msg.rh.isSome
      · rw [if_neg (by simp), hfail2, if_neg (by simp)]
      · rw [if_pos rfl, hfail1, if_pos rfl, hfail2]
    unfold MlsGroup.loadGK
    by_cases hb : gkToBlocked st msg
    · rw [if_pos hb]
    · rw [if_neg hb]
      by_cases hle : toInt32 msg.e ≤ toInt32 st.epoch
      · rw [if_pos hle]
      · rw [if_neg hle, hgkr]

/-- Concrete state and frame for the counterexample and witness of C6. -/
def c6St : GroupState :=
  { cid := "G", peers := [], groupKey := none, epoch := 0,
    pending := [], sendSeq := 0, recvSeq := [], isInitiator := false }

/-- A `gk` frame that carries the **string** `rh = ""` and whose `ek` is
AEAD-bound to the AAD *with* an `"rh":""` segment.  Under the claim as
stated (AAD built with the `rh` segment iff the frame carries a string `rh`)
this frame would decrypt on the primary attempt and install; the code builds
the AAD by truthiness, so both attempts fail and the frame is dropped. -/
def c6Msg : GKFrame :=
  { t := "gk", cid := "H", «to» := none, e := 1, rh := some "",
    n := D.b64e (D.rnd 7 24),
    ek := D.b64e (D.enc (D.rnd 9 32)
            (D.s "\x7b\"t\":\"gk\",\"cid\":\"H\",\"s\":0,\"e\":1,\"rh\":\"\"\x7d")
            (D.rnd 7 24) (D.s "pairkey")) }

theorem mls_loadGK_rh_counterexample :
    c6Msg.rh = some "" ∧
    u8d c6Msg.ek =
      some (D.enc (D.rnd 9 32)
        (D.s "\x7b\"t\":\"gk\",\"cid\":\"H\",\"s\":0,\"e\":1,\"rh\":\"\"\x7d")
        (D.rnd 7 24) (D.s "pairkey")) ∧
    aadGK c6Msg.cid (toInt32 c6Msg.e) c6Msg.rh =
      aadGK c6Msg.cid (toInt32 c6Msg.e) none ∧
    MlsGroup.loadGK c6St c6Msg (D.s "pairkey") = c6St :=
  ⟨rfl, rfl, by decide, by decide⟩

/-- Witness for `mls_loadGK_rh_fallback`: a frame with a non-empty string
`rh` whose `ek` was wrapped under the legacy AAD — the primary attempt fails,
the single legacy retry succeeds, and the key installs. -/
def c6wMsg : GKFrame :=
  { t := "gk", cid := "H", «to» := some "G", e := 1, rh := some "r1",
    n := D.b64e (D.rnd 7 24),
    ek := D.b64e (D.enc (D.rnd 9 32) (aadGK "H" 1 none) (D.rnd 7 24) (D.s "pairkey")) }

theorem mls_loadGK_rh_fallback_witness :
    ¬ aadGK "H" 1 (some "r1") = aadGK "H" 1 none ∧
    (MlsGroup.loadGK c6St c6wMsg (D.s "pairkey")).groupKey = some (D.rnd 9 32) ∧
    (MlsGroup.loadGK c6St c6wMsg (D.s "pairkey")).epoch = toInt32 c6wMsg.e ∧
    MlsGroup.loadGK c6St c6Msg (D.s "pairkey") = c6St := by
  refine ⟨?_, ?_, ?_, ?_⟩
  · intro h
    exact absurd ((mls_loadGK_rh_fallback.1 "H" 1 "r1").mp h) (by decide)
  · exact (mls_loadGK_rh_fallback.2.1 c6St c6wMsg (D.s "pairkey") "r1" (D.rnd 9 32)
      (by decide) (by decide) rfl (by decide) (by decide)).1
  · exact (mls_loadGK_rh_fallback.2.1 c6St c6wMsg (D.s "pairkey") "r1" (D.rnd 9 32)
      (by decide) (by decide) rfl (by decide) (by decide)).2
  · exact mls_loadGK_rh_fallback.2.2 c6St c6Msg (D.s "pairkey") (by decide) (by decide)

/-! ### C9: the base-class `Group.loadGK` has no epoch guard -/

/-- C9: base-class `Group.loadGK` performs no epoch comparison: for a `gk`
frame addressed to self whose `ek` decrypts under the supplied pair key it
installs the decrypted group key and sets `epoch` to the frame's (coerced)
`e`, resetting `sendSeq` and `recvSeq`, even when that epoch is below the
current one — so through this entry point the epoch can move backwards. -/
theorem group_loadGK_no_epoch_guard (st : GroupState) (msg : GKFrame) (mySk gk nn : D)
    (hto : msg.«to» = none ∨ msg.«to» = some st.cid)
    (hn : u8d msg.n = some nn)
    (hek : u8d msg.ek = some (D.enc gk (aadM ("gk") msg.cid 0 (toInt32 msg.e)) nn mySk))
    (hpend : st.pending = []) :
    Group.loadGK st msg mySk =
      { st with groupKey := some gk, epoch := toInt32 msg.e, sendSeq := 0, recvSeq := [] } ∧
    (toInt32 msg.e < st.epoch → (Group.loadGK st msg mySk).epoch < st.epoch) := by
  have hb : gkToBlocked st msg = false := by
    rcases hto with h | h <;> simp [gkToBlocked, h]
  have hmain : Group.loadGK st msg mySk =
      { st with groupKey := some gk, epoch := toInt32 msg.e, sendSeq := 0, recvSeq := [] } := by
    unfold Group.loadGK
    rw [if_neg (by simp [hb]), hek, hn]
    dsimp only
    have haead : aeadDec (D.enc gk (aadM ("gk") msg.cid 0 (toInt32 msg.e)) nn mySk)
        (aadM ("gk") msg.cid 0 (toInt32 msg.e)) nn mySk = some gk := by
      simp [aeadDec]
    rw [haead]
    dsimp only
    rw [flush_of_pending_nil _ (by rfl) (by simpa using hpend)]
  refine ⟨hmain, ?_⟩
  intro hlt
  rw [hmain]
  exact hlt

/-- Concrete downgrade for the witness of `group_loadGK_no_epoch_guard`:
current epoch 5, valid `gk` frame for epoch 1 — the old epoch is installed. -/
def c9St : GroupState :=
  { cid := "G", peers := [], groupKey := some (D.rnd 0 32), epoch := 5,
    pending := [], sendSeq := 3, recvSeq := [("H", 4)], isInitiator := false }

def c9Msg : GKFrame :=
  { t := "gk", cid := "H", «to» := some "G", e := 1, rh := none,
    n := D.b64e (D.rnd 6 24),
    ek := D.b64e (D.enc (D.rnd 2 32) (aadM ("gk") "H" 0 (toInt32 1)) (D.rnd 6 24) (D.s "pk")) }

theorem group_loadGK_no_epoch_guard_witness :
    Group.loadGK c9St c9Msg (D.s "pk") =
      { c9St with groupKey := some (D.rnd 2 32), epoch := toInt32 1,
                  sendSeq := 0, recvSeq := [] } ∧
    (Group.loadGK c9St c9Msg (D.s "pk")).epoch < c9St.epoch := by
  have h := group_loadGK_no_epoch_guard c9St c9Msg (D.s "pk") (D.rnd 2 32) (D.rnd 6 24)
    (Or.inr rfl) rfl rfl rfl
  exact ⟨h.1, h.2 (by decide)⟩

/-! ### Handshake module (handshake.js)

The external cryptographic primitives are modelled so that exactly the
algebraic contracts the source relies on hold: X25519 public keys are the
scalars themselves and `crypto_scalarmult` is multiplication (commutative, as
ECDH requires); the ML-KEM encapsulation is the pair (recipient public key,
encapsulation randomness) and decapsulation with the matching private key
recovers the encapsulated shared secret (implicit rejection otherwise). -/

/-- Role argument of `handshakeWith`. -/
inductive HRole where
  | init
  | resp
deriving DecidableEq, Repr

/-- A member's local key material (`createLocalKeys`); `kemRnd` is the
randomness the KEM session uses on `encap`. -/
structure HKeys where
  xPriv : Nat
  xPub : Nat
  pqPriv : Nat
  pqPub : Nat
  idPriv : Nat
  idPub : Nat
  kemRnd : Nat
deriving DecidableEq, Repr

/-- A peer record as mutated by `handshakeWith`. -/
structure HPeerRec where
  xPub : Nat
  pqPub : Nat
  idPub : Nat
  ct : Option (Nat × Nat)
  sig : Option D
  sigOK : Option Bool
  sas : Option D
deriving DecidableEq, Repr

/-- Public key determined by a private scalar (symbolic model). -/
def pubOfPriv (n : Nat) : Nat := n

/-- `sodium.crypto_scalarmult(priv, pub)` — commutative by construction, as
the X25519 contract requires. -/
def crypto_scalarmult (priv pubv : Nat) : Nat := priv * pubv

/-- `kem.encap(pub)`: ciphertext and shared secret. -/
def kemEncap (pub rnd : Nat) : (Nat × Nat) × D :=
  ((pub, rnd), D.cat (D.s "mlkem") (D.cat (D.nat pub) (D.nat rnd)))

/-- `kem.decap(ct, priv)`: recovers the shared secret when the ciphertext was
made for this key; implicit rejection (a garbage secret) otherwise. -/
def kemDecap (ct : Nat × Nat) (priv : Nat) : D :=
  if ct.1 = pubOfPriv priv then D.cat (D.s "mlkem") (D.cat (D.nat ct.1) (D.nat ct.2))
  else D.cat (D.s "mlkem-reject") (D.cat (D.nat ct.1) (D.nat ct.2))

/-- `crypto_sign_detached` (numbers stand in for the base64 of key bytes). -/
def sigD (msg : D) (priv : Nat) : D :=
  D.cat (D.s "ed25519sig") (D.cat (D.nat (pubOfPriv priv)) msg)

/-- `crypto_sign_verify_detached`. -/
def verifyD (sg msg : D) (pub : Nat) : Bool :=
  sg = D.cat (D.s "ed25519sig") (D.cat (D.nat pub) msg)

/-- `fp4` – 4-byte fingerprint, base64'd (the trailing-`=` strip is dropped
from the symbolic model). -/
def fp4 (msg : D) : D := D.b64e (D.hash 4 (D.s "") msg)

/-- The canonical INIT→RESP transcript string of `buildTranscript`
(`toString` of the numeric keys stands in for their base64). -/
def transcriptStr (room : String) (initId respId initX respX initPq respPq : Nat) : String :=
  "NT-v1|handshake|" ++ room ++ "|init.id=" ++ toString initId ++
  "|resp.id=" ++ toString respId ++ "|init.x=" ++ toString initX ++
  "|resp.x=" ++ toString respX ++ "|init.pq=" ++ toString initPq ++
  "|resp.pq=" ++ toString respPq

/-- `buildTranscript(local, peer, role, room)`: INIT then RESP regardless of
the local role. -/
def buildTranscript («local» : HKeys) (peer : HPeerRec) (role : HRole) (room : String) : String :=
  match role with
  | .init =>
      transcriptStr room «local».idPub peer.idPub «local».xPub peer.xPub
        «local».pqPub peer.pqPub
  | .resp =>
      transcriptStr room peer.idPub «local».idPub peer.xPub «local».xPub
        peer.pqPub «local».pqPub

/-- `hkdfExtract(salt, ikm)` = `crypto_generichash(32, ikm, salt)`. -/
def hkdfExtract (salt ikm : D) : D := D.hash 32 salt ikm

/-- `hkdfExpand(prk, info)` = `crypto_generichash(32, info ‖ 0x01, prk)`. -/
def hkdfExpand (prk info : D) : D := D.hash 32 prk (D.cat info (D.nat 1))

/-- `deriveSharedKey(sharedX, sharedK, transcript, room)` — no role-dependent
input. -/
def deriveSharedKey (sharedX sharedK : D) (transcript : D) (room : String) : D :=
  let salt := D.hash 32 (D.s "") (D.cat sharedX sharedK)
  let prk := hkdfExtract salt transcript
  let info := D.s ("NullTrace v1 handshake|room=" ++ (if room = "" then "nt" else room))
  hkdfExpand prk info

/-- `handshakeWith(peer, local, role, room)` (handshake.js lines 94–128):
returns the pair key and the mutated peer record; the responder throws when
`peer.ct` is missing. -/
def handshakeWith (peer : HPeerRec) («local» : HKeys) (role : HRole) (room : String) :
    Except Unit (D × HPeerRec) :=
  let sharedX := D.nat (crypto_scalarmult «local».xPriv peer.xPub)
  match role with
  | .init =>
      let er := kemEncap peer.pqPub «local».kemRnd
      let peer1 := { peer with ct := some er.1 }
      let tr := buildTranscript «local» peer1 .init room
      let peer2 := { peer1 with sig := some (sigD (D.s tr) «local».idPriv),
                                sas := some (fp4 (D.s tr)) }
      .ok (deriveSharedKey sharedX er.2 (D.s tr) room, peer2)
  | .resp =>
      match peer.ct with
      | none => .error ()
      | some ct =>
          let sharedK := kemDecap ct «local».pqPriv
          let tr := buildTranscript «local» peer .resp room
          let sigOK := peer.sig.map (fun sg => verifyD sg (D.s tr) peer.idPub)
          let peer2 := { peer with sigOK := sigOK, sas := some (fp4 (D.s tr)) }
          .ok (deriveSharedKey sharedX sharedK (D.s tr) room, peer2)

/-- The pair key produced by a handshake call, if it did not throw. -/
def pairKeyOf : Except Unit (D × HPeerRec) → Option D
  | .ok p => some p.1
  | .error _ => none

/-- C2: handshake role symmetry.  For key material `A`, `B` with matching
public keys in the records, where the responder's record holds the KEM
ciphertext produced by the initiator's encapsulation,
`handshakeWith(recB, A, init, room)` and `handshakeWith(recA, B, resp, room)`
derive the identical pair key (the transcript is INIT→RESP on both sides and
the derivation has no role-dependent input), and that key is 32 bytes. -/
theorem handshake_role_symmetry (A B : HKeys) (recB recA : HPeerRec) (room : String)
    (hAx : A.xPub = pubOfPriv A.xPriv) (hBx : B.xPub = pubOfPriv B.xPriv)
    (hBpq : B.pqPub = pubOfPriv B.pqPriv)
    (hrBx : recB.xPub = B.xPub) (hrBpq : recB.pqPub = B.pqPub) (hrBid : recB.idPub = B.idPub)
    (hrAx : recA.xPub = A.xPub) (hrApq : recA.pqPub = A.pqPub) (hrAid : recA.idPub = A.idPub)
    (hct : recA.ct = some (recB.pqPub, A.kemRnd)) :
    pairKeyOf (handshakeWith recB A .init room) =
      pairKeyOf (handshakeWith recA B .resp room) ∧
    ∃ k, pairKeyOf (handshakeWith recB A .init room) = some k ∧ dLen k = 32 := by
  constructor
  · unfold handshakeWith
    rw [hct]
    dsimp only [pairKeyOf]
    unfold kemEncap kemDecap deriveSharedKey buildTranscript crypto_scalarmult pubOfPriv
    rw [hrBx, hrAx, hrBpq, hrBid, hrAid, hrApq, hAx, hBx, hBpq]
    unfold pubOfPriv
    simp [Nat.mul_comm]
  · unfold handshakeWith
    dsimp only [pairKeyOf]
    exact ⟨_, rfl, rfl⟩

/-- Concrete key material for the witness of `handshake_role_symmetry`. -/
def c2A : HKeys :=
  { xPriv := 2, xPub := 2, pqPriv := 3, pqPub := 3, idPriv := 5, idPub := 5, kemRnd := 7 }

def c2B : HKeys :=
  { xPriv := 11, xPub := 11, pqPriv := 13, pqPub := 13, idPriv := 17, idPub := 17, kemRnd := 19 }

/-- A's record of B before the handshake. -/
def c2RecB : HPeerRec :=
  { xPub := 11, pqPub := 13, idPub := 17, ct := none, sig := none, sigOK := none, sas := none }

/-- B's record of A, already holding the ciphertext A's encapsulation made. -/
def c2RecA : HPeerRec :=
  { xPub := 2, pqPub := 3, idPub := 5, ct := some (13, 7), sig := none, sigOK := none,
    sas := none }

theorem handshake_role_symmetry_witness :
    pairKeyOf (handshakeWith c2RecB c2A .init "r1") =
      pairKeyOf (handshakeWith c2RecA c2B .resp "r1") ∧
    ∃ k, pairKeyOf (handshakeWith c2RecB c2A .init "r1") = some k ∧ dLen k = 32 :=
  handshake_role_symmetry c2A c2B c2RecB c2RecA "r1"
    rfl rfl rfl rfl rfl rfl rfl rfl rfl rfl

/-! ### Capsule module (nacp.js)

Byte strings are `List Nat` (values < 256); JS strings are their lists of
UTF-16 units.  `b64Encode`/`b64Decode` implement the ORIGINAL (padded)
base64 variant of `b64`/`u8`; `utf8Encode` is `TextEncoder.encode`.  The
Ed25519 primitives are modelled by the deterministic stand-in `mkSig`
(signatures are 64 bytes, determined by message and public key; the public
key is the last 32 bytes of the 64-byte secret key, as in libsodium).
`TextDecoder.decode` + `JSON.parse` — both external primitives — are one
abstract parameter `jp` of `parseCapsule`. -/

def CAPSULE_TTL_MS : Int := 2 * 60 * 1000

def PAD_MIN : Nat := 512

def PAD_MAX : Nat := 1024

def MAX_CAPSULE_BYTES : Nat := 4096

/-- JS string literal to its list of character codes. -/
def strBytes (s : String) : List Nat := s.data.map Char.toNat

/-- The base64 digit alphabet (A–Z a–z 0–9 + /). -/
def b64Tbl (n : Nat) : Nat :=
  if n < 26 then 65 + n
  else if n < 52 then 71 + n
  else if n < 62 then n - 4
  else if n = 62 then 43 else 47

/-- `sodium.to_base64` (ORIGINAL variant, with `=` padding). -/
def b64Encode : List Nat → List Nat
  | [] => []
  | [a] => [b64Tbl (a / 4), b64Tbl (a % 4 * 16), 61, 61]
  | [a, b] => [b64Tbl (a / 4), b64Tbl (a % 4 * 16 + b / 16), b64Tbl (b % 16 * 4), 61]
  | a :: b :: c :: rest =>
      b64Tbl (a / 4) :: b64Tbl (a % 4 * 16 + b / 16) :: b64Tbl (b % 16 * 4 + c / 64) ::
      b64Tbl (c % 64) :: b64Encode rest

/-- Value of one base64 digit. -/
def b64Val (c : Nat) : Option Nat :=
  if 65 ≤ c ∧ c ≤ 90 then some (c - 65)
  else if 97 ≤ c ∧ c ≤ 122 then some (c - 71)
  else if 48 ≤ c ∧ c ≤ 57 then some (c + 4)
  else if c = 43 then some 62
  else if c = 47 then some 63 else none

/-- `sodium.from_base64`: strict 4-character groups, `=` padding, throwing
(`Except.error`) on malformed input. -/
def b64Decode : List Nat → Except Unit (List Nat)
  | [] => .ok []
  | a :: b :: c :: d :: rest =>
      match b64Val a, b64Val b with
      | some va, some vb =>
          if c = 61 then
            if d = 61 ∧ rest = [] then .ok [va * 4 + vb / 16] else .error ()
          else
            match b64Val c with
            | some vc =>
                if d = 61 then
                  if rest = [] then .ok [va * 4 + vb / 16, vb % 16 * 16 + vc / 4]
                  else .error ()
                else
                  match b64Val d with
                  | some vd =>
                      match b64Decode rest with
                      | .ok tail =>
                          .ok ([va * 4 + vb / 16, vb % 16 * 16 + vc / 4,
                                vc % 4 * 64 + vd] ++ tail)
                      | .error u => .error u
                  | none => .error ()
            | none => .error ()
      | _, _ => .error ()
  | _ => .error ()

/-- UTF-8 bytes of one code point (`TextEncoder`). -/
def utf8Char (u : Nat) : List Nat :=
  if u < 128 then [u]
  else if u < 2048 then [192 + u / 64, 128 + u % 64]
  else if u < 65536 then [224 + u / 4096, 128 + u / 64 % 64, 128 + u % 64]
  else [240 + u / 262144, 128 + u / 4096 % 64, 128 + u / 64 % 64, 128 + u % 64]

/-- `new TextEncoder().encode(s)`. -/
def utf8Encode (l : List Nat) : List Nat := List.flatten (l.map utf8Char)

/-- One character of `JSON.stringify` string escaping, at byte level. -/
def escByte (b : Nat) : List Nat :=
  if b = 34 then [92, 34]
  else if b = 92 then [92, 92]
  else if b = 8 then [92, 98]
  else if b = 9 then [92, 116]
  else if b = 10 then [92, 110]
  else if b = 12 then [92, 102]
  else if b = 13 then [92, 114]
  else if b < 32 then
    [92, 117, 48, 48,
     (if b / 16 < 10 then 48 + b / 16 else 87 + b / 16),
     (if b % 16 < 10 then 48 + b % 16 else 87 + b % 16)]
  else [b]

/-- `JSON.stringify` string escaping at byte level (without the quotes). -/
def escB (l : List Nat) : List Nat := List.flatten (l.map escByte)

/-- A JSON string literal: quote, escaped content, quote. -/
def jsonStrField (v : List Nat) : List Nat := [34] ++ escB v ++ [34]

/-- `str.trim()` (the common ASCII whitespace). -/
def isWsB (c : Nat) : Bool := c == 32 || (9 ≤ c && c ≤ 13)

def trimBytes (l : List Nat) : List Nat :=
  ((l.dropWhile isWsB).reverse.dropWhile isWsB).reverse

/-- Deterministic stand-in for an Ed25519 detached signature: 64 bytes,
a function of the message and the signer's public key. -/
def mkSig (msg pubv : List Nat) : List Nat :=
  (List.range 64).map (fun i => (msg.sum + pubv.sum + i) % 256)

/-- `signDetached(msg, priv)`: the libsodium secret key is 64 bytes whose
last 32 bytes are the public key. -/
def signDetachedB (msg priv : List Nat) : List Nat := mkSig msg (priv.drop 32)

/-- `verifyDetached(sig, msg, pub)`: throws on malformed key/signature
lengths (as the sodium wrapper does), else compares. -/
def verifyE (sg msg pubv : List Nat) : Except Unit Bool :=
  if pubv.length ≠ 32 ∨ sg.length ≠ 64 then .error ()
  else .ok (sg == mkSig msg pubv)

/-- `randomPad(len)`: `len` characters with codes `33 + (v % 94)`. -/
def randomPad (len : Nat) (rng : Nat → Nat) : List Nat :=
  (List.range len).map (fun i => 33 + rng i % 94)

/-- A JavaScript value as seen by `parseCapsule` after `JSON.parse` (plus
`undefV` for absent properties).  Array contents are never inspected by the
source, so `jarr` is kept opaque. -/
inductive JsVal where
  | undefV
  | jnull
  | jbool (b : Bool)
  | jnum (n : Int)
  | jstr (s : List Nat)
  | jobj (fields : List (List Nat × JsVal))
  | jarr

/-- Property access / destructuring: absent keys give `undefined`. -/
def getField : JsVal → List Nat → JsVal
  | .jobj fs, k => (((fs.find? (fun p => p.1 == k)).map (·.2)).getD .undefV)
  | _, _ => .undefV

/-- JS truthiness. -/
def truthy : JsVal → Bool
  | .undefV => false
  | .jnull => false
  | .jbool b => b
  | .jnum n => n != 0
  | .jstr s => !(s == [])
  | .jobj _ => true
  | .jarr => true

/-- `typeof v === "object"` (true for `null` and arrays too). -/
def isObjType : JsVal → Bool
  | .jnull => true
  | .jobj _ => true
  | .jarr => true
  | _ => false

/-- Element coercion of `Array.prototype.join` (null/undefined → ""). -/
def valToJoin : JsVal → List Nat
  | .undefV => []
  | .jnull => []
  | .jbool b => strBytes (cond b "true" "false")
  | .jnum n => strBytes (toString n)
  | .jstr s => s
  | .jobj _ => strBytes "[object Object]"
  | .jarr => []

/-- `String(v)` conversion. -/
def strOfVal : JsVal → List Nat
  | .undefV => strBytes "undefined"
  | .jnull => strBytes "null"
  | v => valToJoin v

/-- `v ?? ""`. -/
def nullishToEmpty : JsVal → JsVal
  | .undefV => .jstr []
  | .jnull => .jstr []
  | v => v

/-- `buildCapsuleTranscript(p)`: the canonical byte transcript
`v=…|alg=…|room=…|cid=…|x=…|k=…[|iat=…]|exp=…` (UTF-8 encoded). -/
def buildCapsuleTranscriptV (p : JsVal) : List Nat :=
  utf8Encode (
    strBytes "v=" ++ valToJoin (nullishToEmpty (getField p (strBytes "v"))) ++
    strBytes "|alg=" ++ valToJoin (nullishToEmpty (getField p (strBytes "alg"))) ++
    strBytes "|room=" ++ valToJoin (getField p (strBytes "room")) ++
    strBytes "|cid=" ++ valToJoin (getField p (strBytes "cid")) ++
    strBytes "|x=" ++ valToJoin (getField p (strBytes "x")) ++
    strBytes "|k=" ++ valToJoin (getField p (strBytes "k")) ++
    (match getField p (strBytes "iat") with
     | .jnum i => strBytes "|iat=" ++ strBytes (toString i)
     | _ => []) ++
    strBytes "|exp=" ++ strOfVal (getField p (strBytes "exp")))

/-- The payload object built by `createCapsule`. -/
def capsulePayloadVal (room cid xB kB : List Nat) (now expv : Int) : JsVal :=
  .jobj [(strBytes "v", .jstr (strBytes "NT-C1")),
         (strBytes "alg", .jstr (strBytes "Ed25519|X25519+ML-KEM-512")),
         (strBytes "room", .jstr room),
         (strBytes "cid", .jstr cid),
         (strBytes "x", .jstr xB),
         (strBytes "k", .jstr kB),
         (strBytes "iat", .jnum now),
         (strBytes "exp", .jnum expv)]

/-- `JSON.stringify` of the payload object (field order as inserted). -/
def capsulePayloadJson (room cid xB kB : List Nat) (now expv : Int) : List Nat :=
  strBytes "\x7b\"v\":\"NT-C1\",\"alg\":\"Ed25519|X25519+ML-KEM-512\",\"room\":" ++
  jsonStrField room ++ strBytes ",\"cid\":" ++ jsonStrField cid ++
  strBytes ",\"x\":" ++ jsonStrField xB ++ strBytes ",\"k\":" ++ jsonStrField kB ++
  strBytes ",\"iat\":" ++ strBytes (toString now) ++
  strBytes ",\"exp\":" ++ strBytes (toString expv) ++ strBytes "\x7d"

/-- `JSON.stringify` of the outer capsule `{payload, id, sig[, pad]}`. -/
def capsuleJsonB (payloadJson idB sigB : List Nat) (pad : Option (List Nat)) : List Nat :=
  strBytes "\x7b\"payload\":" ++ payloadJson ++ strBytes ",\"id\":" ++ jsonStrField idB ++
  strBytes ",\"sig\":" ++ jsonStrField sigB ++
  (match pad with
   | some p => strBytes ",\"pad\":" ++ jsonStrField p ++ strBytes "\x7d"
   | none => strBytes "\x7d")

/-- The serialized payload, `id` and `sig` strings of `createCapsule`
(everything the two `JSON.stringify` calls share). -/
def capsuleComponents (room cid xPub pqPub idPriv idPub : List Nat) (now : Int) :
    List Nat × List Nat × List Nat :=
  let xB := b64Encode xPub
  let kB := b64Encode pqPub
  let expv := now + CAPSULE_TTL_MS
  let transcript := buildCapsuleTranscriptV (capsulePayloadVal room cid xB kB now expv)
  (capsulePayloadJson room cid xB kB now expv, b64Encode idPub,
   b64Encode (signDetachedB transcript idPriv))

/-- The capsule JSON before the padding step (`JSON.stringify(capsule)` the
first time). -/
def createCapsulePrepadJson (room cid xPub pqPub idPriv idPub : List Nat) (now : Int) :
    List Nat :=
  let c := capsuleComponents room cid xPub pqPub idPriv idPub now
  capsuleJsonB c.1 c.2.1 c.2.2 none

/-- The final capsule JSON: padded toward `target` when the first
serialization is shorter (`if (padCount > 0) capsule.pad = randomPad(…)`).
`target` is the uniform draw `PAD_MIN + floor(random * (PAD_MAX - PAD_MIN + 1))`
and `rng` the `crypto.getRandomValues` bytes of `randomPad`. -/
def createCapsuleJson (room cid xPub pqPub idPriv idPub : List Nat) (now : Int)
    (target : Nat) (rng : Nat → Nat) : List Nat :=
  let c := capsuleComponents room cid xPub pqPub idPriv idPub now
  let json1 := capsuleJsonB c.1 c.2.1 c.2.2 none
  let padCount : Int := (target : Int) - (json1.length : Int)
  if 0 < padCount then capsuleJsonB c.1 c.2.1 c.2.2 (some (randomPad padCount.toNat rng))
  else json1

/-- `createCapsule(room, xPub, pqPub, cid, idPriv, idPub)`: base64 of the
UTF-8 of the (possibly padded) capsule JSON. -/
def createCapsule (room cid xPub pqPub idPriv idPub : List Nat) (now : Int)
    (target : Nat) (rng : Nat → Nat) : List Nat :=
  b64Encode (utf8Encode (createCapsuleJson room cid xPub pqPub idPriv idPub now target rng))

/-- The record returned by a successful `parseCapsule`. -/
structure Invitation where
  room : JsVal
  cid : JsVal
  xPub : List Nat
  pqPub : List Nat
  idPub : List Nat
  ver : JsVal
  alg : JsVal

/-- `u8(v)` on a JS value: `sodium.from_base64` throws unless `v` is a
well-formed base64 string. -/
def u8E : JsVal → Except Unit (List Nat)
  | .jstr s => b64Decode s
  | _ => .error ()

/-- The `iat` rejection test of `parseCapsule`:
`typeof iat === "number" && (iat > now || exp - iat > CAPSULE_TTL_MS * 2)`. -/
def iatBadB (now e : Int) (iat : JsVal) : Bool :=
  match iat with
  | .jnum i => decide (i > now) || decide (e - i > CAPSULE_TTL_MS * 2)
  | _ => false

/-- nacp.js lines 101–133: everything of `parseCapsule` after `JSON.parse`. -/
def parsePostJson (now : Int) (obj : JsVal) : Except Unit (Option Invitation) :=
  if ¬ (truthy obj && isObjType obj) = true then .ok none
  else
    let payload := getField obj (strBytes "payload")
    if ¬ (truthy payload && isObjType payload) = true then .ok none
    else
      match getField payload (strBytes "exp") with
      | .jnum e =>
          if now > e then .ok none
          else
            if iatBadB now e (getField payload (strBytes "iat")) then .ok none
            else
              let transcript := buildCapsuleTranscriptV payload
              match u8E (getField obj (strBytes "id")) with
              | .error u => .error u
              | .ok idPubBytes =>
                  match u8E (getField obj (strBytes "sig")) with
                  | .error u => .error u
                  | .ok sigBytes =>
                      match verifyE sigBytes transcript idPubBytes with
                      | .error u => .error u
                      | .ok ok =>
                          if ok = false then .ok none
                          else
                            match u8E (getField payload (strBytes "x")) with
                            | .error u => .error u
                            | .ok xPub =>
                                match u8E (getField payload (strBytes "k")) with
                                | .error u => .error u
                                | .ok pqPub =>
                                    .ok (some
                                      { room := getField payload (strBytes "room"),
                                        cid := getField payload (strBytes "cid"),
                                        xPub := xPub, pqPub := pqPub,
                                        idPub := idPubBytes,
                                        ver :=
                                          if truthy (getField payload (strBytes "v")) then
                                            getField payload (strBytes "v")
                                          else .jstr (strBytes "legacy"),
                                        alg :=
                                          if truthy (getField payload (strBytes "alg")) then
                                            getField payload (strBytes "alg")
                                          else .jstr (strBytes "legacy") })
      | _ => .ok none

/-- The body of `parseCapsule(str)` as it can throw: type check, trim,
base64 decode, size bound, `JSON.parse` (the parameter `jp`, standing for
`TextDecoder.decode` + `JSON.parse`), then the checks of `parsePostJson`. -/
def parseCapsuleE (jp : List Nat → Except Unit JsVal) (now : Int) (input : JsVal) :
    Except Unit (Option Invitation) :=
  match input with
  | .jstr s =>
      match b64Decode (trimBytes s) with
      | .error u => .error u
      | .ok bytes =>
          if MAX_CAPSULE_BYTES < bytes.length then .ok none
          else
            match jp bytes with
            | .error u => .error u
            | .ok obj => parsePostJson now obj
  | _ => .ok none

/-- `parseCapsule(str)`: the surrounding `try { … } catch { return null }`. -/
def parseCapsule (jp : List Nat → Except Unit JsVal) (now : Int) (input : JsVal) :
    Option Invitation :=
  match parseCapsuleE jp now input with
  | .ok r => r
  | .error _ => none

/-! ### C4: capsule size -/

theorem b64Encode_length : ∀ l : List Nat, (b64Encode l).length = 4 * ((l.length + 2) / 3)
  | [] => by simp [b64Encode]
  | [a] => by simp [b64Encode]
  | [a, b] => by simp [b64Encode]
  | a :: b :: c :: rest => by
      have ih := b64Encode_length rest
      simp only [b64Encode, List.length_cons, ih]
      have h3 : rest.length + 1 + 1 + 1 + 2 = rest.length + 2 + 3 := by omega
      rw [h3, Nat.add_div_right _ (by norm_num)]
      ring

theorem escByte_clean (b : Nat) (h1 : b ≠ 34) (h2 : b ≠ 92) (h3 : 32 ≤ b) :
    escByte b = [b] := by
  unfold escByte
  split_ifs with g1 g2 g3 g4 g5 g6 g7 g8 <;>
    first | rfl | (exfalso; omega)

theorem escB_clean (l : List Nat) (h : ∀ b ∈ l, b ≠ 34 ∧ b ≠ 92 ∧ 32 ≤ b) :
    escB l = l := by
  induction l with
  | nil => rfl
  | cons b rest ih =>
      have hb := h b (by simp)
      have hrest := ih (fun x hx => h x (List.mem_cons_of_mem b hx))
      simp only [escB, List.map_cons, List.flatten_cons] at *
      rw [escByte_clean b hb.1 hb.2.1 hb.2.2, hrest]
      exact List.singleton_append

theorem jsonStrField_length (v : List Nat) :
    (jsonStrField v).length = (escB v).length + 2 := by
  simp [jsonStrField]

theorem capsuleJsonB_length_pad (pj idB sigB p : List Nat) :
    (capsuleJsonB pj idB sigB (some p)).length =
      (capsuleJsonB pj idB sigB none).length + 9 + (escB p).length := by
  have h7 : (strBytes ",\"pad\":").length = 7 := rfl
  have h1 : (strBytes "\x7d").length = 1 := rfl
  simp only [capsuleJsonB, List.length_append, jsonStrField_length, h7, h1]
  omega

theorem randomPad_length (n : Nat) (rng : Nat → Nat) : (randomPad n rng).length = n := by
  simp [randomPad]

theorem randomPad_clean (n : Nat) (rng : Nat → Nat)
    (h : ∀ i, i < n → rng i % 94 ≠ 1 ∧ rng i % 94 ≠ 59) :
    escB (randomPad n rng) = randomPad n rng := by
  apply escB_clean
  intro b hb
  simp only [randomPad, List.mem_map, List.mem_range] at hb
  obtain ⟨i, hi, rfl⟩ := hb
  have := h i hi
  have hm : rng i % 94 < 94 := Nat.mod_lt _ (by norm_num)
  refine ⟨by omega, by omega, by omega⟩

/-- C4 (amended): the returned base64 string always has length
`4·⌈L/3⌉` where `L` is the UTF-8 length of the final capsule JSON — the
padding step only steers the **pre-base64 JSON** toward the uniformly drawn
`target ∈ [512, 1024]`, and when it applies (and the pad needs no JSON
escaping) the final JSON length is `target + 9`; the base64 expansion means
the encoded size is *not* confined to `[512, 1024]`. -/
theorem createCapsule_size_amended (room cid xPub pqPub idPriv idPub : List Nat)
    (now : Int) (target : Nat) (rng : Nat → Nat) :
    (createCapsule room cid xPub pqPub idPriv idPub now target rng).length =
      4 * (((utf8Encode
              (createCapsuleJson room cid xPub pqPub idPriv idPub now target rng)).length
            + 2) / 3) ∧
    ((createCapsulePrepadJson room cid xPub pqPub idPriv idPub now).length < target →
     (∀ i, i < target - (createCapsulePrepadJson room cid xPub pqPub idPriv idPub now).length →
        rng i % 94 ≠ 1 ∧ rng i % 94 ≠ 59) →
     (createCapsuleJson room cid xPub pqPub idPriv idPub now target rng).length =
       target + 9) := by
  constructor
  · exact b64Encode_length _
  · intro hlt hclean
    have heq : createCapsuleJson room cid xPub pqPub idPriv idPub now target rng =
        (if 0 < (target : Int) -
              ((createCapsulePrepadJson room cid xPub pqPub idPriv idPub now).length : Int)
         then capsuleJsonB (capsuleComponents room cid xPub pqPub idPriv idPub now).1
                (capsuleComponents room cid xPub pqPub idPriv idPub now).2.1
                (capsuleComponents room cid xPub pqPub idPriv idPub now).2.2
                (some (randomPad ((target : Int) -
                  ((createCapsulePrepadJson room cid xPub pqPub idPriv idPub
                    now).length : Int)).toNat rng))
         else createCapsulePrepadJson room cid xPub pqPub idPriv idPub now) := rfl
    set L1 := (createCapsulePrepadJson room cid xPub pqPub idPriv idPub now).length with hL1def
    have hcp : (capsuleJsonB (capsuleComponents room cid xPub pqPub idPriv idPub now).1
        (capsuleComponents room cid xPub pqPub idPriv idPub now).2.1
        (capsuleComponents room cid xPub pqPub idPriv idPub now).2.2 none).length = L1 := rfl
    rw [heq, if_pos (by omega)]
    have htn : ((target : Int) - (L1 : Int)).toNat = target - L1 := by
      omega
    rw [htn, capsuleJsonB_length_pad, hcp,
        randomPad_clean (target - L1) rng (by simpa using hclean), randomPad_length]
    omega

set_option maxRecDepth 100000 in
/-- C4 counterexample: at a tiny concrete input with the legal uniform draw
`target = 1024`, the returned base64 capsule string is longer than 1024
bytes (the claim asserts the encoded length lies in `[512, 1024]`). -/
theorem createCapsule_size_counterexample :
    PAD_MIN ≤ 1024 ∧ 1024 ≤ PAD_MAX ∧
    1024 < (createCapsule (strBytes "r") (strBytes "c") [] [] [] [] 0 1024
      (fun _ => 64)).length := by
  refine ⟨by decide, by decide, by decide⟩

set_option maxRecDepth 100000 in
theorem createCapsule_size_amended_witness :
    (createCapsulePrepadJson (strBytes "r") (strBytes "c") [] [] [] [] 0).length < 1024 ∧
    (createCapsuleJson (strBytes "r") (strBytes "c") [] [] [] [] 0 1024
      (fun _ => 64)).length = 1024 + 9 ∧
    (createCapsule (strBytes "r") (strBytes "c") [] [] [] [] 0 1024 (fun _ => 64)).length =
      4 * (((utf8Encode (createCapsuleJson (strBytes "r") (strBytes "c") [] [] [] [] 0 1024
              (fun _ => 64))).length + 2) / 3) := by
  have h := createCapsule_size_amended (strBytes "r") (strBytes "c") [] [] [] [] 0 1024
    (fun _ => 64)
  exact ⟨by decide, h.2 (by decide) (by decide), h.1⟩

/-! ### C7: capsule TTL acceptance -/

theorem mkSig_length (msg pubv : List Nat) : (mkSig msg pubv).length = 64 := by
  simp [mkSig]

/-- The single-path evaluation of `parseCapsule` on a well-formed, correctly
signed capsule: only the two TTL tests decide between `some` and `none`. -/
theorem parseCapsule_wf_eval
    (jp : List Nat → Except Unit JsVal) (now : Int) (s bytes : List Nat) (c : JsVal)
    (pub sg xb kb : List Nat) (e : Int)
    (hb : b64Decode (trimBytes s) = .ok bytes)
    (hlen : bytes.length ≤ MAX_CAPSULE_BYTES)
    (hjp : jp bytes = .ok c)
    (hobj : truthy c = true ∧ isObjType c = true)
    (hpay : truthy (getField c (strBytes "payload")) = true ∧
            isObjType (getField c (strBytes "payload")) = true)
    (hexp : getField (getField c (strBytes "payload")) (strBytes "exp") = .jnum e)
    (hid : u8E (getField c (strBytes "id")) = .ok pub) (hpublen : pub.length = 32)
    (hsig : u8E (getField c (strBytes "sig")) = .ok sg)
    (hsigval : sg = mkSig (buildCapsuleTranscriptV (getField c (strBytes "payload"))) pub)
    (hx : u8E (getField (getField c (strBytes "payload")) (strBytes "x")) = .ok xb)
    (hk : u8E (getField (getField c (strBytes "payload")) (strBytes "k")) = .ok kb) :
    parseCapsule jp now (.jstr s) =
      (if now > e then none
       else if iatBadB now e (getField (getField c (strBytes "payload")) (strBytes "iat"))
       then none
       else some
         { room := getField (getField c (strBytes "payload")) (strBytes "room"),
           cid := getField (getField c (strBytes "payload")) (strBytes "cid"),
           xPub := xb, pqPub := kb, idPub := pub,
           ver := if truthy (getField (getField c (strBytes "payload")) (strBytes "v")) then
                    getField (getField c (strBytes "payload")) (strBytes "v")
                  else .jstr (strBytes "legacy"),
           alg := if truthy (getField (getField c (strBytes "payload")) (strBytes "alg")) then
                    getField (getField c (strBytes "payload")) (strBytes "alg")
                  else .jstr (strBytes "legacy") }) := by
  have hsg64 : sg.length = 64 := by rw [hsigval]; exact mkSig_length _ _
  have hver : verifyE sg (buildCapsuleTranscriptV (getField c (strBytes "payload"))) pub =
      .ok true := by
    unfold verifyE
    rw [if_neg (by simp [hpublen, hsg64])]
    simp [hsigval]
  unfold parseCapsule parseCapsuleE
  dsimp only
  rw [hb]
  dsimp only
  rw [if_neg (by omega), hjp]
  dsimp only
  unfold parsePostJson
  rw [if_neg (by simp [hobj.1, hobj.2])]
  dsimp only
  rw [if_neg (by simp [hpay.1, hpay.2]), hexp]
  dsimp only
  by_cases hnow : now > e
  · rw [if_pos hnow, if_pos hnow]
  · rw [if_neg hnow, if_neg hnow]
    by_cases hbad :
        iatBadB now e (getField (getField c (strBytes "payload")) (strBytes "iat")) = true
    · rw [if_pos hbad, if_pos hbad]
    · rw [if_neg hbad, if_neg hbad, hid]
      dsimp only
      rw [hsig]
      dsimp only
      rw [hver]
      dsimp only
      rw [if_neg (by simp), hx]
      dsimp only
      rw [hk]

/-- C7: for a well-formed, correctly signed capsule, `parseCapsule` accepts
iff `now ≤ exp`, and, when `iat` is present as a number, additionally
`iat ≤ now` and `exp - iat ≤ 2·TTL` (TTL = 120 s); otherwise it returns
`null`. -/
theorem parseCapsule_ttl_iff
    (jp : List Nat → Except Unit JsVal) (now : Int) (s bytes : List Nat) (c : JsVal)
    (pub sg xb kb : List Nat) (e : Int)
    (hb : b64Decode (trimBytes s) = .ok bytes)
    (hlen : bytes.length ≤ MAX_CAPSULE_BYTES)
    (hjp : jp bytes = .ok c)
    (hobj : truthy c = true ∧ isObjType c = true)
    (hpay : truthy (getField c (strBytes "payload")) = true ∧
            isObjType (getField c (strBytes "payload")) = true)
    (hexp : getField (getField c (strBytes "payload")) (strBytes "exp") = .jnum e)
    (hid : u8E (getField c (strBytes "id")) = .ok pub) (hpublen : pub.length = 32)
    (hsig : u8E (getField c (strBytes "sig")) = .ok sg)
    (hsigval : sg = mkSig (buildCapsuleTranscriptV (getField c (strBytes "payload"))) pub)
    (hx : u8E (getField (getField c (strBytes "payload")) (strBytes "x")) = .ok xb)
    (hk : u8E (getField (getField c (strBytes "payload")) (strBytes "k")) = .ok kb) :
    (∃ inv, parseCapsule jp now (.jstr s) = some inv) ↔
      (now ≤ e ∧ ∀ i : Int,
        getField (getField c (strBytes "payload")) (strBytes "iat") = .jnum i →
        i ≤ now ∧ e - i ≤ CAPSULE_TTL_MS * 2) := by
  rw [parseCapsule_wf_eval jp now s bytes c pub sg xb kb e hb hlen hjp hobj hpay hexp hid
    hpublen hsig hsigval hx hk]
  constructor
  · rintro ⟨inv, hinv⟩
    by_cases hnow : now > e
    · rw [if_pos hnow] at hinv
      cases hinv
    · rw [if_neg hnow] at hinv
      refine ⟨by omega, ?_⟩
      intro i hi
      by_cases hbad :
          iatBadB now e (getField (getField c (strBytes "payload")) (strBytes "iat")) = true
      · rw [if_pos hbad] at hinv
        cases hinv
      · rw [hi] at hbad
        simp only [iatBadB, Bool.or_eq_true, decide_eq_true_eq, not_or] at hbad
        omega
  · rintro ⟨h1, h2⟩
    have hbadf :
        iatBadB now e (getField (getField c (strBytes "payload")) (strBytes "iat")) = false := by
      unfold iatBadB
      cases hiat : getField (getField c (strBytes "payload")) (strBytes "iat") with
      | jnum i =>
          have := h2 i (by rw [hiat])
          simp only [Bool.or_eq_false_iff, decide_eq_false_iff_not]
          omega
      | undefV => rfl
      | jnull => rfl
      | jbool b => rfl
      | jstr t => rfl
      | jobj fs => rfl
      | jarr => rfl
    rw [if_neg (by omega), hbadf]
    exact ⟨_, rfl⟩

/-- Concrete payload for the witness of `parseCapsule_ttl_iff` (a legacy
capsule without `v`/`alg`, with `iat = 0`, `exp = 120000`). -/
def c7Payload : JsVal :=
  .jobj [(strBytes "room", .jstr (strBytes "r1")),
         (strBytes "cid", .jstr (strBytes "h1")),
         (strBytes "x", .jstr []),
         (strBytes "k", .jstr []),
         (strBytes "iat", .jnum 0),
         (strBytes "exp", .jnum 120000)]

def c7Pub : List Nat := List.replicate 32 0

def c7Sig : List Nat := mkSig (buildCapsuleTranscriptV c7Payload) c7Pub

def c7Cap : JsVal :=
  .jobj [(strBytes "payload", c7Payload),
         (strBytes "id", .jstr (b64Encode c7Pub)),
         (strBytes "sig", .jstr (b64Encode c7Sig))]

def c7jp : List Nat → Except Unit JsVal := fun _ => .ok c7Cap

set_option maxRecDepth 100000 in
theorem parseCapsule_ttl_iff_witness :
    ∃ inv, parseCapsule c7jp 0 (.jstr []) = some inv :=
  (parseCapsule_ttl_iff c7jp 0 [] [] c7Cap c7Pub c7Sig [] [] 120000
      rfl (by decide) rfl ⟨rfl, rfl⟩ ⟨rfl, rfl⟩ rfl rfl (by decide) rfl rfl rfl rfl).mpr
    ⟨by decide, fun i hi => by
      have h0 : JsVal.jnum 0 = JsVal.jnum i := hi
      cases h0
      exact ⟨le_refl 0, by decide⟩⟩

/-! ### C10: totality of `parseCapsule` -/

/-- C10: `parseCapsule` is total over its public interface: every decode,
parse and verification step sits inside the surrounding `try`/`catch`
(modelled by `parseCapsuleE` running in `Except` with the catch in
`parseCapsule`), so every input — non-strings, malformed base64, inputs
whose `JSON.parse` throws — yields an invitation record or `null`, never an
uncaught exception. -/
theorem parseCapsule_total :
    (∀ (jp : List Nat → Except Unit JsVal) (now : Int) (v : JsVal),
       parseCapsule jp now v = none ∨ ∃ inv, parseCapsule jp now v = some inv) ∧
    (∀ (jp : List Nat → Except Unit JsVal) (now : Int) (n : Int),
       parseCapsule jp now (.jnum n) = none) ∧
    (∀ (jp : List Nat → Except Unit JsVal) (now : Int),
       parseCapsule jp now (.jstr (strBytes "!!!")) = none) ∧
    (∀ (now : Int) (v : JsVal),
       parseCapsule (fun _ => .error ()) now v = none) := by
  refine ⟨?_, ?_, ?_, ?_⟩
  · intro jp now v
    cases h : parseCapsule jp now v with
    | none => exact Or.inl rfl
    | some inv => exact Or.inr ⟨inv, rfl⟩
  · intro jp now n
    rfl
  · intro jp now
    rfl
  · intro now v
    unfold parseCapsule parseCapsuleE
    cases v <;> try rfl
    rename_i s
    dsimp only
    cases hb : b64Decode (trimBytes s) with
    | error u => rfl
    | ok bytes =>
        by_cases hsz : MAX_CAPSULE_BYTES < bytes.length
        · simp [hsz]
        · simp [hsz]
